import Mathlib

/-!
Verification of the evaluation-budgeted, checkpointable optimization driver
in `optunity/api.py` (function `optimize` and the prologues of `maximize` /
`minimize`).

The driver is embedded shallowly:

* machine floats become `ℚ` (only order/equality of scores matters here);
* Python `int` becomes `ℤ`, with Python floor division `//` as `Int.fdiv`
  and Python `%` as `Int.emod` (both agree with Python for the modulus 2
  used by the code);
* the pluggable solver is abstracted by a trace of invocation outcomes:
  each call to `solver.optimize` performs some fresh evaluations and then
  either returns normally, or is interrupted by the periodic-checkpoint
  signal (`ModuloEvaluationsException`) or by budget exhaustion
  (`MaximumEvaluationsException`), exactly the three cases the driver's
  `while True` loop distinguishes;
* the `CallLog` / wrapper support lives in `optunity/functions.py`, which
  is not part of the provided sources; those operations are modelled from
  the specification (see the doc comments of `CallLog.insert` etc.).
-/

/-- A candidate point: mapping from parameter name to numeric value
(`Point` of the data model; equality is structural). -/
structure Point where
  params : List (String × ℚ)
deriving DecidableEq, Repr, Inhabited

/-- The call log is an ordered mapping from points to scores, realised as an
association list in insertion order (the `OrderedDict` held in
`CallLog.data`). -/
abbrev CallLog := List (Point × ℚ)

/-- Modelled from the spec: `CallLog.insert` of `optunity/functions.py` (not
under `src/`). "insert(point, score) appends (ordered)"; "Re-inserting an
existing Point overwrites its score" in place, as `OrderedDict` assignment
does. -/
def CallLog.insert (log : CallLog) (p : Point) (s : ℚ) : CallLog :=
  if log.any (fun e => decide (e.1 = p)) then
    log.map (fun e => if e.1 = p then (p, s) else e)
  else
    log ++ [(p, s)]

/-- Modelled from the spec: `CallLog.get` of `optunity/functions.py` (not
under `src/`): returns the stored score of a point, `none` when the point
was never logged (Python returns `None`). -/
def CallLog.get (log : CallLog) (p : Point) : Option ℚ :=
  (log.find? (fun e => decide (e.1 = p))).map Prod.snd

/-- Modelled from the spec: `CallLog.to_dict` of `optunity/functions.py`
(not under `src/`): export of the log to a plain mapping.  Built like a
Python `dict`: entries are added left to right, a repeated key overwrites
in place. -/
def CallLog.toDict (log : CallLog) : List (Point × ℚ) :=
  log.foldl (fun d e => CallLog.insert d e.1 e.2) []

/-- The keys of a call log, in insertion order. -/
def CallLog.keys (log : CallLog) : List Point := log.map Prod.fst

/-- The stored scores of a call log, in insertion order. -/
def CallLog.values (log : CallLog) : List ℚ := log.map Prod.snd

/-- Distinctness of the keys of a call log (every reachable log satisfies
it: `CallLog.insert` never duplicates a key). -/
def keysNodup (log : CallLog) : Prop := (log.map Prod.fst).Nodup

instance (log : CallLog) : Decidable (keysNodup log) := by
  unfold keysNodup; infer_instance

/-- The budget rounding applied on a fresh run (`api.py` lines 359-363):
`missing_evals = max_evals // 2`; if `max_evals % 2 == 0` the ceiling
becomes `max_evals + 2 * missing_evals - 1`, else
`max_evals + 2 * missing_evals`.  Python `//` is floor division
(`Int.fdiv`), Python `%` is `Int.emod`. -/
def adjustBudgetFresh (maxEvals : Int) : Int :=
  let missingEvals := maxEvals.fdiv 2
  if maxEvals.emod 2 = 0 then maxEvals + 2 * missingEvals - 1
  else maxEvals + 2 * missingEvals

/-- The budget rounding applied on restore (`api.py` lines 290-294); the
code is textually identical to the fresh-run site. -/
def adjustBudgetRestore (maxEvals : Int) : Int :=
  let missingEvals := maxEvals.fdiv 2
  if maxEvals.emod 2 = 0 then maxEvals + 2 * missingEvals - 1
  else maxEvals + 2 * missingEvals

/-- One step of Python `max(...)`/`min(...)` over `enumerate(values)` with
`key=operator.itemgetter(1)` (`api.py` lines 413-416): the running best
`(bi, bv)` is replaced by the next candidate `(k, v)` only on a strict
improvement, so the first of equal scores is kept.  `maxz` selects
between `max` and `min`. -/
def scanBest (maxz : Bool) : List ℚ → Nat → Nat → ℚ → Nat × ℚ
  | [], _, bi, bv => (bi, bv)
  | v :: vs, k, bi, bv =>
      if (maxz && decide (bv < v)) || (!maxz && decide (v < bv)) then
        scanBest maxz vs (k + 1) k v
      else
        scanBest maxz vs (k + 1) bi bv

/-- Index returned by
`max(enumerate(vals), key=operator.itemgetter(1))` (or `min` when
`maxz = false`).  On the empty list Python raises `ValueError`; callers
of `bestIndex` guard for that case. -/
def bestIndex (maxz : Bool) (vals : List ℚ) : Nat :=
  match vals with
  | [] => 0
  | v :: vs => (scanBest maxz vs 1 0 v).1

/-- Solution extraction from the call log (`api.py` lines 412-417 and
316-321): `solution = list(f.call_log.keys())[index]` for the best index.
`none` models the `ValueError` Python raises on an empty log. -/
def extractSolution (maxz : Bool) (log : CallLog) : Option Point :=
  match log with
  | [] => none
  | _ => (log.map Prod.fst).get? (bestIndex maxz (log.map Prod.snd))

/-- `a` is at least as good as `b` for the direction `maxz` (`≤` when
maximizing, `≥` when minimizing). -/
def wle (maxz : Bool) (a b : ℚ) : Prop := if maxz then a ≤ b else b ≤ a

/-- `a` is strictly worse than `b` for the direction `maxz`. -/
def wlt (maxz : Bool) (a b : ℚ) : Prop := if maxz then a < b else b < a

/-- The checkpoint record (`dict_to_save` / `saved_f` of `api.py`):
`{log_data, max_evals, num_evals, elapsed_time}`.  `log_data` keeps the
entries in the stored order of the pickled `OrderedDict`. -/
structure SavedRecord where
  log_data : List (Point × ℚ)
  max_evals : Int
  num_evals : Int
  elapsed_time : ℚ
deriving DecidableEq, Repr

/-- The log-replay loop of `api.py` lines 349-351 (and 311-313):
`while len(saved_f['log_data']) > 0: key, value = saved_f['log_data'].popitem();
f.call_log.insert(value, **key._asdict())`.  `OrderedDict.popitem()` pops
the most recently inserted entry, so the loop consumes the stored entries
last-to-first: it walks `stored.reverse`. -/
def restoreLoopRev : List (Point × ℚ) → CallLog → CallLog
  | [], log => log
  | kv :: rest, log => restoreLoopRev rest (log.insert kv.1 kv.2)

/-- Replay of a stored log into a fresh call log, see `restoreLoopRev`. -/
def restoreLoop (stored : List (Point × ℚ)) (log : CallLog) : CallLog :=
  restoreLoopRev stored.reverse log

/-- Wrapper state rebuilt on restore (`api.py` lines 343-351):
`f.num_evals = saved_f['num_evals']` and the log replayed by the
`popitem` loop. -/
structure WrapperState where
  numEvals : Int
  log : CallLog
deriving DecidableEq, Repr

/-- The wrapper state rebuilt from a checkpoint record. -/
def restoreWrapperState (saved : SavedRecord) : WrapperState :=
  { numEvals := saved.num_evals, log := restoreLoop saved.log_data [] }

/-- The budget a freshly written checkpoint record is compared against
(`api.py` lines 391/399): the restored record's `max_evals` when
restoring, else the originally requested budget. -/
def budgetKey (savedF : Option SavedRecord) (originalMaxEvals : Int) : Int :=
  match savedF with
  | some s => s.max_evals
  | none => originalMaxEvals

/-- The record written on a checkpoint (`api.py` lines 389-404 and
421-435): `max_evals` is always `original_max_evals`; `num_evals` is
`len(f.call_log)` unless the log length equals the budget key, in which
case the cadence-adjusted internal ceiling is stored instead. -/
def mkSaveRecord (savedF : Option SavedRecord) (originalMaxEvals adjustedMaxEvals : Int)
    (log : CallLog) (elapsed : ℚ) : SavedRecord :=
  { log_data := log
    max_evals := originalMaxEvals
    num_evals :=
      if (log.length : Int) = budgetKey savedF originalMaxEvals then adjustedMaxEvals
      else (log.length : Int)
    elapsed_time := elapsed }

/-- Result of the interactive overwrite confirmation (`api.py` lines
260-276). -/
inductive ConfirmResult where
  | proceed
  | exitCode (code : Nat)
  | noAnswer
deriving DecidableEq, Repr

/-- The `valid` answer table of `api.py` line 260: `yes`, `y`, `ye` accept;
`no`, `n` decline; anything else re-prompts. -/
def validAnswer (s : String) : Option Bool :=
  if s = "yes" ∨ s = "y" ∨ s = "ye" then some true
  else if s = "no" ∨ s = "n" then some false
  else none

/-- The confirmation prompt loop (`api.py` lines 265-276): the first valid
answer decides; accepting continues, declining calls `sys.exit(999)`;
invalid answers re-prompt.  The injected `answers` list models the stream
of user inputs (already lower-cased by `.lower()`); running out of
answers models blocking forever. -/
def confirmLoop : List String → ConfirmResult
  | [] => ConfirmResult.noAnswer
  | a :: rest =>
      match validAnswer a with
      | some true => ConfirmResult.proceed
      | some false => ConfirmResult.exitCode 999
      | none => confirmLoop rest

/-- First valid answer of a user-input stream, per the `valid` table. -/
def firstValid : List String → Option Bool
  | [] => none
  | a :: rest =>
      match validAnswer a with
      | some b => some b
      | none => firstValid rest

/-- One invocation of `solver.optimize(f, maximize, pmap)` as seen by the
driver loop (`api.py` lines 373-440).  The solver performs some fresh
evaluations `evals` through the wrapper (each appended to the call log and
counted) and then either returns a solution normally, or lets the
periodic-checkpoint signal `ModuloEvaluationsException` escape, or lets
`MaximumEvaluationsException` escape once the ceiling is hit. -/
inductive SolveOutcome where
  | normal (sol : Point) (evals : List (Point × ℚ))
  | modulo (evals : List (Point × ℚ))
  | maxed (evals : List (Point × ℚ))
deriving DecidableEq, Repr

/-- Configuration of one `optimize` call: the flags and injected
collaborators of `api.py` `optimize`.  `trace` abstracts the pluggable
solver; `answers` abstracts interactive input; `saveFileExists` abstracts
`os.path.isfile` on the save path; `elapsed` abstracts the wall-clock
reading used when a record is written. -/
structure OptConfig where
  maximize : Bool
  maxEvals : Int
  decoder : Option (Point → Point)
  saveDir : Bool
  restore : Option SavedRecord
  saveFileExists : Bool
  answers : List String
  trace : List SolveOutcome
  elapsed : ℚ

/-- The caller-facing result tuple of `optimize`
(`solution, optimize_results(optimum, stats, call_dict, report)`). -/
structure OptResult where
  solution : Point
  optimum : Option ℚ
  statsNumEvals : Int
  statsTime : ℚ
  callDict : List (Point × ℚ)
  report : Option Unit
deriving DecidableEq, Repr

/-- How the modelled `optimize` call ends: a normal return, `sys.exit`
(overwrite declined), a Python error that is not part of the driver's
control flow (`ValueError` of `max()` on an empty log), or blocking
forever (no further solver outcome / no valid answer). -/
inductive ExitKind where
  | returned (r : OptResult)
  | exited (code : Nat)
  | crashed
  | stuck
deriving DecidableEq, Repr

/-- Observable outcome of one modelled `optimize` call: how it ended, the
checkpoint records written (in order), the number of solver invocations
and the number of fresh objective evaluations performed. -/
structure RunOutcome where
  exit : ExitKind
  writes : List SavedRecord
  solverInvocations : Nat
  newEvals : Nat
deriving DecidableEq, Repr

/-- Effect of the fresh evaluations of one solver invocation on the
wrapper state: each evaluation increments the counter and inserts into
the log. -/
def applyEvals (st : WrapperState) (evals : List (Point × ℚ)) : WrapperState :=
  { numEvals := st.numEvals + evals.length
    log := evals.foldl (fun l e => l.insert e.1 e.2) st.log }

/-- The shared result-building epilogue of `optimize` (`api.py` lines
444-456, also inlined at 323-336): optionally decode the solution, look
the (decoded) solution up in the call log to obtain `optimum`, report
`num_evals = len(f.call_log)` and the log exported as a dict. -/
def epilogue (decoder : Option (Point → Point)) (log : CallLog) (sol : Point)
    (report : Option Unit) (tElapsed : ℚ) : OptResult :=
  let sol := match decoder with
    | some d => d sol
    | none => sol
  { solution := sol
    optimum := log.get sol
    statsNumEvals := (log.length : Int)
    statsTime := tElapsed
    callDict := log.toDict
    report := report }

/-- The `MaximumEvaluationsException` handler (`api.py` lines 409-440):
extract the best point from the call log (crashes like Python `max()` on
an empty log), write a checkpoint record when a save directory is
configured, then break to the epilogue with `report = None`. -/
def maxHandler (cfg : OptConfig) (savedF : Option SavedRecord) (originalMax adjMax : Int)
    (st : WrapperState) (writes : List SavedRecord) (invocs newEvals : Nat) : RunOutcome :=
  match extractSolution cfg.maximize st.log with
  | none => { exit := ExitKind.crashed, writes := writes,
              solverInvocations := invocs, newEvals := newEvals }
  | some sol =>
      let writes := writes ++
        (if cfg.saveDir then [mkSaveRecord savedF originalMax adjMax st.log cfg.elapsed] else [])
      { exit := ExitKind.returned (epilogue cfg.decoder st.log sol none cfg.elapsed)
        writes := writes, solverInvocations := invocs, newEvals := newEvals }

/-- The `while True` solve loop of `optimize` (`api.py` lines 373-440).
Before each solver invocation, a restored run whose counter already
equals the ceiling raises `MaximumEvaluationsException` itself (lines
377-379).  A `ModuloEvaluationsException` is caught, a record is written
when a save directory is configured, and the solver is invoked again; a
`MaximumEvaluationsException` runs `maxHandler`; a normal solver return
breaks to the epilogue with the solver report. -/
def driverLoop (cfg : OptConfig) (savedF : Option SavedRecord) (originalMax adjMax : Int)
    (st : WrapperState) (writes : List SavedRecord) (invocs newEvals : Nat)
    (trace : List SolveOutcome) : RunOutcome :=
  if adjMax > 0 ∧ savedF.isSome ∧ st.numEvals = adjMax then
    maxHandler cfg savedF originalMax adjMax st writes invocs newEvals
  else
    match trace with
    | [] => { exit := ExitKind.stuck, writes := writes,
              solverInvocations := invocs, newEvals := newEvals }
    | SolveOutcome.normal sol evals :: _ =>
        let st := applyEvals st evals
        { exit := ExitKind.returned (epilogue cfg.decoder st.log sol (some ()) cfg.elapsed)
          writes := writes, solverInvocations := invocs + 1
          newEvals := newEvals + evals.length }
    | SolveOutcome.modulo evals :: rest =>
        let st := applyEvals st evals
        let writes := writes ++
          (if cfg.saveDir then [mkSaveRecord savedF originalMax adjMax st.log cfg.elapsed] else [])
        driverLoop cfg savedF originalMax adjMax st writes (invocs + 1)
          (newEvals + evals.length) rest
    | SolveOutcome.maxed evals :: _ =>
        let st := applyEvals st evals
        maxHandler cfg savedF originalMax adjMax st writes (invocs + 1)
          (newEvals + evals.length)

/-- The requested budget after the restore adjustment of `api.py` lines
281-285: a restored run requested with `max_evals == 0` adopts the budget
stored in the record. -/
def resolvedBudget (cfg : OptConfig) : Int :=
  match cfg.restore with
  | some saved => if cfg.maxEvals = 0 then saved.max_evals else cfg.maxEvals
  | none => cfg.maxEvals

/-- The restore short circuit (`api.py` lines 296-336): when the adjusted
ceiling minus the record's consumed evaluations is non-positive, rebuild
the log, extract the best point from it and return directly — no solver
invocation, no fresh evaluation, no checkpoint written, elapsed time
taken from the record. -/
def shortCircuitResult (cfg : OptConfig) (saved : SavedRecord) : RunOutcome :=
  let log := restoreLoop saved.log_data []
  match extractSolution cfg.maximize log with
  | none => { exit := ExitKind.crashed, writes := [], solverInvocations := 0, newEvals := 0 }
  | some sol =>
      { exit := ExitKind.returned (epilogue cfg.decoder log sol none saved.elapsed_time)
        writes := [], solverInvocations := 0, newEvals := 0 }

/-- The modelled `optimize` (`api.py` lines 221-456).  With a restore
record: resolve the budget, adjust it, short-circuit when the remaining
budget is exhausted, else run the loop from the rebuilt wrapper state.
Without one: run the overwrite-confirmation pre-check when a save
directory is configured and the save file already exists, then run the
loop from a fresh wrapper state. -/
def optimizeModel (cfg : OptConfig) : RunOutcome :=
  match cfg.restore with
  | some saved =>
      let e := if cfg.maxEvals = 0 then saved.max_evals else cfg.maxEvals
      let adj := adjustBudgetRestore e
      if adj - saved.num_evals ≤ 0 then
        shortCircuitResult cfg saved
      else
        driverLoop cfg (some saved) e adj (restoreWrapperState saved) [] 0 0 cfg.trace
  | none =>
      match (if cfg.saveDir ∧ cfg.saveFileExists then confirmLoop cfg.answers
             else ConfirmResult.proceed) with
      | ConfirmResult.exitCode c =>
          { exit := ExitKind.exited c, writes := [], solverInvocations := 0, newEvals := 0 }
      | ConfirmResult.noAnswer =>
          { exit := ExitKind.stuck, writes := [], solverInvocations := 0, newEvals := 0 }
      | ConfirmResult.proceed =>
          driverLoop cfg none cfg.maxEvals (adjustBudgetFresh cfg.maxEvals)
            { numEvals := 0, log := [] } [] 0 0 cfg.trace

/-- The box-constraint sanity check of `maximize` / `minimize` (`api.py`
lines 178-179 and 209-210): each box value must be a two-element
`[lb, ub]` list with `lb < ub`. -/
def validConstraintPair (v : List ℚ) : Bool :=
  decide (v.length = 2) &&
    (match v with
     | a :: b :: _ => decide (a < b)
     | _ => false)

/-- `all([len(v) == 2 and v[0] < v[1] for v in kwargs.values()])`. -/
def boxOk (box : List (String × List ℚ)) : Bool :=
  box.all (fun kv => validConstraintPair kv.2)

/-- Observable outcome of a `maximize` / `minimize` call for the purpose
of the box-constraint check: whether the `assert` fired, and how many
objective evaluations were performed. -/
structure ApiCall where
  assertionError : Bool
  evalsPerformed : Nat
deriving DecidableEq, Repr

/-- The prologue of `maximize` (`api.py` lines 159-187): the `assert` on
the box constraints is the first statement, before the objective is
wrapped and before any solver or evaluation runs; `pipelineEvals`
abstracts the number of evaluations the rest of the call would
perform. -/
def maximizeRun (box : List (String × List ℚ)) (pipelineEvals : Nat) : ApiCall :=
  if boxOk box then { assertionError := false, evalsPerformed := pipelineEvals }
  else { assertionError := true, evalsPerformed := 0 }

/-- The prologue of `minimize` (`api.py` lines 190-218), with the
identical `assert`. -/
def minimizeRun (box : List (String × List ℚ)) (pipelineEvals : Nat) : ApiCall :=
  if boxOk box then { assertionError := false, evalsPerformed := pipelineEvals }
  else { assertionError := true, evalsPerformed := 0 }

/-- The best-scoring entry a direct scan of a stored checkpoint log (in
its stored insertion order) selects, together with its stored score. -/
def directBestScore (maxz : Bool) (stored : List (Point × ℚ)) : Option ℚ :=
  (extractSolution maxz stored).bind (CallLog.get stored)

/-- The value at the selected best index (used to compare extraction over
differently ordered logs). -/
def bestVal (maxz : Bool) (vals : List ℚ) : ℚ :=
  vals.getD (bestIndex maxz vals) 0

/-! ### Concrete data used to instantiate the theorems -/

/-- Concrete point `x = 1`. -/
def pA : Point := ⟨[("x", 1)]⟩

/-- Concrete point `x = 2`. -/
def pB : Point := ⟨[("x", 2)]⟩

/-- Concrete point `x = 3`. -/
def pC : Point := ⟨[("x", 3)]⟩

/-- Concrete point `x = 4`. -/
def pD : Point := ⟨[("x", 4)]⟩

/-- A stored checkpoint log with two distinct points. -/
def storedC2 : List (Point × ℚ) := [(pA, 1), (pB, 2)]

/-- A checkpoint record with two tied best scores whose consumed count
already exceeds any ceiling derived from a budget of 2. -/
def savedTied : SavedRecord :=
  { log_data := [(pA, 1), (pB, 1)], max_evals := 2, num_evals := 5, elapsed_time := 0 }

/-- Restore run over `savedTied` with budget 2 (adjusted ceiling 3 ≤ 5
consumed): exercises the restore short circuit on a tie. -/
def cfgTied : OptConfig :=
  { maximize := true, maxEvals := 2, decoder := none, saveDir := false,
    restore := some savedTied, saveFileExists := false, answers := [],
    trace := [], elapsed := 0 }

/-- A checkpoint record with distinct scores and consumed count 5. -/
def savedPlain : SavedRecord :=
  { log_data := [(pA, 1), (pB, 2)], max_evals := 2, num_evals := 5, elapsed_time := 0 }

/-- Restore run over `savedPlain` with budget 2: exercises the restore
short circuit without ties. -/
def cfgPlain : OptConfig :=
  { maximize := true, maxEvals := 2, decoder := none, saveDir := false,
    restore := some savedPlain, saveFileExists := false, answers := [],
    trace := [], elapsed := 0 }

/-- Four evaluations at distinct points performed by one solver
invocation. -/
def evsFour : List (Point × ℚ) := [(pA, 1), (pB, 2), (pC, 3), (pD, 4)]

/-- Fresh run with requested budget 4 and a save directory: the solver is
interrupted by the cadence signal after four evaluations, then signals
budget exhaustion. -/
def cfgSaveFour : OptConfig :=
  { maximize := true, maxEvals := 4, decoder := none, saveDir := true,
    restore := none, saveFileExists := false, answers := [],
    trace := [SolveOutcome.modulo evsFour, SolveOutcome.maxed []], elapsed := 0 }

/-- The first checkpoint record `cfgSaveFour` writes: the log holds the 4
evaluations performed, yet `num_evals` records the adjusted ceiling 7. -/
def recSaveFour : SavedRecord :=
  { log_data := evsFour, max_evals := 4, num_evals := 7, elapsed_time := 0 }

/-- Fresh run with budget 1 and one exhausting solver invocation. -/
def cfgOne : OptConfig :=
  { maximize := true, maxEvals := 1, decoder := none, saveDir := false,
    restore := none, saveFileExists := false, answers := [],
    trace := [SolveOutcome.maxed [(pA, 1)]], elapsed := 0 }

/-- The result `cfgOne` returns. -/
def resOne : OptResult :=
  { solution := pA, optimum := some 1, statsNumEvals := 1, statsTime := 0,
    callDict := [(pA, 1)], report := none }

/-- Fresh minimizing run with budget 2 and one exhausting solver
invocation over two points. -/
def cfgTwo : OptConfig :=
  { maximize := false, maxEvals := 2, decoder := none, saveDir := false,
    restore := none, saveFileExists := false, answers := [],
    trace := [SolveOutcome.maxed [(pA, 3), (pB, 2)]], elapsed := 0 }

/-- The result `cfgTwo` returns. -/
def resTwo : OptResult :=
  { solution := pB, optimum := some 2, statsNumEvals := 2, statsTime := 0,
    callDict := [(pA, 3), (pB, 2)], report := none }

/-- Fresh run with a save directory whose save file already exists; the
user answers garbage once and then declines. -/
def cfgDecline : OptConfig :=
  { maximize := true, maxEvals := 3, decoder := none, saveDir := true,
    restore := none, saveFileExists := true, answers := ["maybe", "n"],
    trace := [], elapsed := 0 }

/-- Configuration used to instantiate the loop-step theorem. -/
def cfgStep : OptConfig :=
  { maximize := true, maxEvals := 2, decoder := none, saveDir := true,
    restore := none, saveFileExists := false, answers := [],
    trace := [], elapsed := 0 }

/-- A call log with two points tied at the best score. -/
def logTied : CallLog := [(pA, 5), (pB, 5)]

/-- A box-constraint set whose only pair is invalid (`lb ≥ ub`). -/
def badBox : List (String × List ℚ) := [("x", [2, 1])]

/-! ### Helper lemmas -/

theorem adjustBudgetFresh_closed (E : Int) : adjustBudgetFresh E = 2 * E - 1 := by
  show (if E % 2 = 0 then E + 2 * (E.fdiv 2) - 1 else E + 2 * (E.fdiv 2)) = 2 * E - 1
  rw [Int.fdiv_eq_ediv _ (by omega)]
  split <;> omega

theorem adjustBudgetRestore_eq (E : Int) : adjustBudgetRestore E = adjustBudgetFresh E := rfl

theorem wle_refl (maxz : Bool) (a : ℚ) : wle maxz a a := by
  cases maxz <;> simp [wle]

theorem wle_antisymm (maxz : Bool) {a b : ℚ} (h1 : wle maxz a b) (h2 : wle maxz b a) :
    a = b := by
  cases maxz <;> simp [wle] at h1 h2 <;> linarith

theorem wle_of_wlt {maxz : Bool} {a b : ℚ} (h : wlt maxz a b) : wle maxz a b := by
  cases maxz <;> simp [wle, wlt] at h ⊢ <;> exact le_of_lt h

theorem wlt_of_wle_of_wlt {maxz : Bool} {a b c : ℚ} (h1 : wle maxz a b) (h2 : wlt maxz b c) :
    wlt maxz a c := by
  cases maxz <;> simp [wle, wlt] at h1 h2 ⊢ <;> linarith

theorem wle_of_not_wlt {maxz : Bool} {a b : ℚ} (h : ¬ wlt maxz a b) : wle maxz b a := by
  cases maxz <;> simp [wle, wlt] at h ⊢ <;> exact h

theorem scan_cond_iff (maxz : Bool) (bv v : ℚ) :
    ((maxz && decide (bv < v)) || (!maxz && decide (v < bv))) = true ↔ wlt maxz bv v := by
  cases maxz <;> simp [wlt]

theorem scanBest_spec (maxz : Bool) :
    ∀ (vs vals : List ℚ) (k bi : Nat) (bv : ℚ),
      vals.drop k = vs → bi < k → k ≤ vals.length → vals.getD bi 0 = bv →
      (∀ j, j < k → wle maxz (vals.getD j 0) bv) →
      (∀ j, j < bi → wlt maxz (vals.getD j 0) bv) →
      (scanBest maxz vs k bi bv).1 < vals.length ∧
      vals.getD (scanBest maxz vs k bi bv).1 0 = (scanBest maxz vs k bi bv).2 ∧
      (∀ j, j < vals.length → wle maxz (vals.getD j 0) (scanBest maxz vs k bi bv).2) ∧
      (∀ j, j < (scanBest maxz vs k bi bv).1 → wlt maxz (vals.getD j 0) (scanBest maxz vs k bi bv).2)
  | [], vals, k, bi, bv, hdrop, hbik, hklen, hbv, hle, hlt => by
      have hlen : vals.length - k = 0 := by
        have := congrArg List.length hdrop
        simpa [List.length_drop] using this
      simp only [scanBest]
      exact ⟨by omega, hbv, fun j hj => hle j (by omega), hlt⟩
  | v :: vs, vals, k, bi, bv, hdrop, hbik, hklen, hbv, hle, hlt => by
      have hk : k < vals.length := by
        have := congrArg List.length hdrop
        simp [List.length_drop] at this
        omega
      rw [List.drop_eq_getElem_cons hk] at hdrop
      injection hdrop with hv hvs
      have hgk : vals.getD k 0 = v := by rw [List.getD_eq_getElem _ _ hk, hv]
      simp only [scanBest]
      by_cases hc : ((maxz && decide (bv < v)) || (!maxz && decide (v < bv))) = true
      · rw [if_pos hc]
        have hwlt : wlt maxz bv v := (scan_cond_iff maxz bv v).mp hc
        refine scanBest_spec maxz vs vals (k + 1) k v hvs (by omega) (by omega) hgk ?_ ?_
        · intro j hj
          rcases Nat.lt_succ_iff_lt_or_eq.mp hj with h | h
          · exact wle_of_wlt (wlt_of_wle_of_wlt (hle j h) hwlt)
          · subst h; rw [hgk]; exact wle_refl maxz v
        · intro j hj
          exact wlt_of_wle_of_wlt (hle j hj) hwlt
      · rw [if_neg hc]
        have hwle : wle maxz v bv := wle_of_not_wlt fun h => hc ((scan_cond_iff maxz bv v).mpr h)
        refine scanBest_spec maxz vs vals (k + 1) bi bv hvs (by omega) (by omega) hbv ?_ hlt
        intro j hj
        rcases Nat.lt_succ_iff_lt_or_eq.mp hj with h | h
        · exact hle j h
        · subst h; rw [hgk]; exact hwle

theorem bestIndex_spec (maxz : Bool) (vals : List ℚ) (h : vals ≠ []) :
    bestIndex maxz vals < vals.length ∧
    vals.getD (bestIndex maxz vals) 0 = bestVal maxz vals ∧
    (∀ j, j < vals.length → wle maxz (vals.getD j 0) (bestVal maxz vals)) ∧
    (∀ j, j < bestIndex maxz vals → wlt maxz (vals.getD j 0) (bestVal maxz vals)) := by
  match vals with
  | [] => exact absurd rfl h
  | v :: vs =>
      have hspec := scanBest_spec maxz vs (v :: vs) 1 0 v rfl (by omega)
        (by simp) rfl
        (fun j hj => by
          interval_cases j
          exact wle_refl maxz v)
        (fun j hj => by omega)
      have hidx : bestIndex maxz (v :: vs) = (scanBest maxz vs 1 0 v).1 := rfl
      have hval : bestVal maxz (v :: vs) = (v :: vs).getD (scanBest maxz vs 1 0 v).1 0 := by
        unfold bestVal
        rw [hidx]
      refine ⟨?_, ?_, ?_, ?_⟩
      · rw [hidx]; exact hspec.1
      · rw [hidx, hval]
      · intro j hj
        rw [hval, hspec.2.1]
        exact hspec.2.2.1 j hj
      · intro j hj
        rw [hidx] at hj
        rw [hval, hspec.2.1]
        exact hspec.2.2.2 j hj

theorem getD_reverse_eq {l : List ℚ} {i : Nat} (h : i < l.length) :
    l.reverse.getD i 0 = l.getD (l.length - 1 - i) 0 := by
  rw [List.getD_eq_getElem _ _ (by simpa using h),
    List.getD_eq_getElem _ _ (by omega)]
  exact List.getElem_reverse (by simpa using h)

theorem bestVal_reverse (maxz : Bool) (vals : List ℚ) (h : vals ≠ []) :
    bestVal maxz vals.reverse = bestVal maxz vals := by
  have hrev : vals.reverse ≠ [] := by simpa using h
  have h1 := bestIndex_spec maxz vals h
  have h2 := bestIndex_spec maxz vals.reverse hrev
  have hlen : vals.reverse.length = vals.length := List.length_reverse vals
  refine wle_antisymm maxz ?_ ?_
  · -- bestVal of the reverse is attained at some position of vals
    have hb2 : vals.reverse.getD (bestIndex maxz vals.reverse) 0 = bestVal maxz vals.reverse :=
      h2.2.1
    rw [getD_reverse_eq (by omega)] at hb2
    rw [← hb2]
    exact h1.2.2.1 _ (by omega)
  · have hb1 : vals.getD (bestIndex maxz vals) 0 = bestVal maxz vals := h1.2.1
    have hrw : vals.getD (bestIndex maxz vals) 0
        = vals.reverse.getD (vals.length - 1 - bestIndex maxz vals) 0 := by
      rw [getD_reverse_eq (by omega)]
      congr 1
      omega
    rw [← hb1, hrw]
    exact h2.2.2.1 _ (by omega)

theorem insert_of_not_mem_keys {log : CallLog} {p : Point} {s : ℚ}
    (h : ∀ e ∈ log, e.1 ≠ p) : log.insert p s = log ++ [(p, s)] := by
  have hany : log.any (fun e => decide (e.1 = p)) = false := by
    simp only [List.any_eq_false, decide_eq_true_eq]
    exact h
  simp [CallLog.insert, hany]

theorem foldl_insert_append :
    ∀ (l : List (Point × ℚ)) (acc : CallLog),
      (l.map Prod.fst).Nodup → (∀ e ∈ l, ∀ a ∈ acc, a.1 ≠ e.1) →
      List.foldl (fun d e => CallLog.insert d e.1 e.2) acc l = acc ++ l
  | [], acc, _, _ => by simp
  | e :: l, acc, hnd, hdisj => by
      simp only [List.map_cons, List.nodup_cons] at hnd
      have hstep : CallLog.insert acc e.1 e.2 = acc ++ [e] := by
        rw [insert_of_not_mem_keys (fun a ha => hdisj e (by simp) a ha)]
      simp only [List.foldl_cons, hstep]
      rw [foldl_insert_append l (acc ++ [e]) hnd.2 ?_]
      · simp
      · intro e' he' a ha
        rcases List.mem_append.mp ha with ha | ha
        · exact hdisj e' (by simp [he']) a ha
        · have : a = e := by simpa using ha
          subst this
          intro hkey
          exact hnd.1 (hkey ▸ List.mem_map_of_mem Prod.fst he')

theorem toDict_of_keysNodup {log : CallLog} (h : keysNodup log) : log.toDict = log := by
  unfold CallLog.toDict
  rw [foldl_insert_append log [] h (by simp)]
  simp

theorem restoreLoopRev_eq_foldl :
    ∀ (xs : List (Point × ℚ)) (log : CallLog),
      restoreLoopRev xs log = List.foldl (fun d e => CallLog.insert d e.1 e.2) log xs
  | [], log => rfl
  | kv :: rest, log => by
      simp only [restoreLoopRev, List.foldl_cons]
      exact restoreLoopRev_eq_foldl rest (log.insert kv.1 kv.2)

theorem restoreLoop_eq_foldl_reverse (stored : List (Point × ℚ)) (log : CallLog) :
    restoreLoop stored log
      = List.foldl (fun d e => CallLog.insert d e.1 e.2) log stored.reverse := by
  unfold restoreLoop
  exact restoreLoopRev_eq_foldl stored.reverse log

theorem restoreLoop_of_keysNodup {stored : List (Point × ℚ)} (h : keysNodup stored) :
    restoreLoop stored [] = stored.reverse := by
  rw [restoreLoop_eq_foldl_reverse,
    foldl_insert_append stored.reverse [] ?_ (by simp)]
  · simp
  · rw [List.map_reverse]
    exact List.nodup_reverse.mpr h

theorem insert_keysNodup {log : CallLog} (p : Point) (s : ℚ) (h : keysNodup log) :
    keysNodup (log.insert p s) := by
  unfold keysNodup at h ⊢
  unfold CallLog.insert
  by_cases hany : log.any (fun e => decide (e.1 = p)) = true
  · rw [if_pos hany]
    have hkeys : (log.map (fun e => if e.1 = p then (p, s) else e)).map Prod.fst
        = log.map Prod.fst := by
      rw [List.map_map]
      apply List.map_congr_left
      intro e _
      by_cases he : e.1 = p <;> simp [he]
    rw [hkeys]
    exact h
  · rw [if_neg hany]
    have hnot : ∀ e ∈ log, e.1 ≠ p := by
      simp only [List.any_eq_true, decide_eq_true_eq] at hany
      intro e he hc
      exact hany ⟨e, he, hc⟩
    have hpnot : p ∉ log.map Prod.fst := by
      simp only [List.mem_map, not_exists, not_and]
      intro e he
      exact hnot e he
    simpa using List.Nodup.concat hpnot h

theorem foldl_insert_keysNodup :
    ∀ (evs : List (Point × ℚ)) (log : CallLog), keysNodup log →
      keysNodup (List.foldl (fun l e => CallLog.insert l e.1 e.2) log evs)
  | [], log, h => h
  | e :: evs, log, h => by
      simp only [List.foldl_cons]
      exact foldl_insert_keysNodup evs _ (insert_keysNodup e.1 e.2 h)

theorem applyEvals_keysNodup {st : WrapperState} (evals : List (Point × ℚ))
    (h : keysNodup st.log) : keysNodup (applyEvals st evals).log :=
  foldl_insert_keysNodup evals st.log h

theorem restoreLoop_keysNodup (stored : List (Point × ℚ)) :
    keysNodup (restoreLoop stored []) := by
  rw [restoreLoop_eq_foldl_reverse]
  exact foldl_insert_keysNodup stored.reverse [] (by simp [keysNodup])

theorem get_at_index :
    ∀ (log : CallLog), keysNodup log → ∀ i, i < log.length →
      CallLog.get log ((log.map Prod.fst).getD i default)
        = some ((log.map Prod.snd).getD i 0)
  | [], _, i, hi => by simp at hi
  | e :: rest, hnd, 0, hi => by
      simp [CallLog.get, List.find?]
  | e :: rest, hnd, i + 1, hi => by
      simp only [List.map_cons, List.getD_cons_succ]
      unfold keysNodup at hnd
      simp only [List.map_cons, List.nodup_cons] at hnd
      have hilen : i < rest.length := by simpa using Nat.lt_of_succ_lt_succ hi
      have hmem : (rest.map Prod.fst).getD i default ∈ rest.map Prod.fst := by
        rw [List.getD_eq_getElem _ _ (by simpa using hilen)]
        exact List.getElem_mem _
      have hne : e.1 ≠ (rest.map Prod.fst).getD i default := by
        intro hc
        exact hnd.1 (hc ▸ hmem)
      unfold CallLog.get
      simp only [List.find?]
      rw [decide_eq_false hne]
      exact get_at_index rest hnd.2 i hilen

theorem extractSolution_eq_some (maxz : Bool) {log : CallLog} (h : log ≠ []) :
    extractSolution maxz log
      = some ((log.map Prod.fst).getD (bestIndex maxz (log.map Prod.snd)) default) := by
  match log with
  | e :: rest =>
      have hvals : (e :: rest).map Prod.snd ≠ [] := by simp
      have hlt : bestIndex maxz ((e :: rest).map Prod.snd)
          < ((e :: rest).map Prod.fst).length := by
        have := (bestIndex_spec maxz ((e :: rest).map Prod.snd) hvals).1
        simpa using this
      unfold extractSolution
      rw [List.get?_eq_get hlt, List.getD_eq_get _ _ hlt]

theorem epilogue_inv (decoder : Option (Point → Point)) (log : CallLog) (sol : Point)
    (report : Option Unit) (t : ℚ) (h : keysNodup log) :
    (epilogue decoder log sol report t).statsNumEvals
      = ((epilogue decoder log sol report t).callDict.length : Int) ∧
    (epilogue decoder log sol report t).optimum
      = CallLog.get (epilogue decoder log sol report t).callDict
          (epilogue decoder log sol report t).solution := by
  unfold epilogue
  cases decoder <;> simp [toDict_of_keysNodup h]

theorem maxHandler_returned_inv (cfg : OptConfig) (savedF : Option SavedRecord)
    (om adj : Int) (st : WrapperState) (writes : List SavedRecord)
    (invocs newEvals : Nat) (r : OptResult) (h : keysNodup st.log)
    (hr : (maxHandler cfg savedF om adj st writes invocs newEvals).exit
      = ExitKind.returned r) :
    r.statsNumEvals = (r.callDict.length : Int) ∧
    r.optimum = CallLog.get r.callDict r.solution := by
  unfold maxHandler at hr
  cases hex : extractSolution cfg.maximize st.log with
  | none => rw [hex] at hr; simp at hr
  | some sol =>
      rw [hex] at hr
      simp only [ExitKind.returned.injEq] at hr
      subst hr
      exact epilogue_inv cfg.decoder st.log sol none cfg.elapsed h

theorem driverLoop_returned_inv (cfg : OptConfig) (savedF : Option SavedRecord)
    (om adj : Int) :
    ∀ (trace : List SolveOutcome) (st : WrapperState) (writes : List SavedRecord)
      (invocs newEvals : Nat) (r : OptResult),
      keysNodup st.log →
      (driverLoop cfg savedF om adj st writes invocs newEvals trace).exit
        = ExitKind.returned r →
      r.statsNumEvals = (r.callDict.length : Int) ∧
      r.optimum = CallLog.get r.callDict r.solution := by
  intro trace
  induction trace with
  | nil =>
      intro st writes invocs newEvals r hnd hr
      rw [driverLoop.eq_def] at hr
      by_cases hpre : adj > 0 ∧ savedF.isSome = true ∧ st.numEvals = adj
      · rw [if_pos hpre] at hr
        exact maxHandler_returned_inv cfg savedF om adj st writes invocs newEvals r hnd hr
      · rw [if_neg hpre] at hr
        simp at hr
  | cons o rest ih =>
      intro st writes invocs newEvals r hnd hr
      rw [driverLoop.eq_def] at hr
      by_cases hpre : adj > 0 ∧ savedF.isSome = true ∧ st.numEvals = adj
      · rw [if_pos hpre] at hr
        exact maxHandler_returned_inv cfg savedF om adj st writes invocs newEvals r hnd hr
      · rw [if_neg hpre] at hr
        cases o with
        | normal sol evals =>
            have hr2 : ExitKind.returned
                (epilogue cfg.decoder (applyEvals st evals).log sol (some ()) cfg.elapsed)
                = ExitKind.returned r := hr
            injection hr2 with h2
            subst h2
            exact epilogue_inv cfg.decoder (applyEvals st evals).log sol (some ()) cfg.elapsed
              (applyEvals_keysNodup evals hnd)
        | modulo evals =>
            exact ih (applyEvals st evals) _ _ _ r (applyEvals_keysNodup evals hnd) hr
        | maxed evals =>
            exact maxHandler_returned_inv cfg savedF om adj (applyEvals st evals) writes
              (invocs + 1) (newEvals + evals.length) r (applyEvals_keysNodup evals hnd) hr

theorem maxHandler_writes_inv (cfg : OptConfig) (savedF : Option SavedRecord)
    (om adj : Int) (st : WrapperState) (writes : List SavedRecord)
    (invocs newEvals : Nat) (P : SavedRecord → Prop)
    (hP : ∀ log, P (mkSaveRecord savedF om adj log cfg.elapsed))
    (hw : ∀ w ∈ writes, P w) :
    ∀ w ∈ (maxHandler cfg savedF om adj st writes invocs newEvals).writes, P w := by
  unfold maxHandler
  cases extractSolution cfg.maximize st.log with
  | none => simpa using hw
  | some sol =>
      intro w hwmem
      simp only at hwmem
      rcases List.mem_append.mp hwmem with hmem | hmem
      · exact hw w hmem
      · by_cases hsd : cfg.saveDir = true
        · rw [if_pos hsd] at hmem
          have : w = mkSaveRecord savedF om adj st.log cfg.elapsed := by simpa using hmem
          subst this
          exact hP st.log
        · rw [if_neg hsd] at hmem
          simp at hmem

theorem driverLoop_writes_inv (cfg : OptConfig) (savedF : Option SavedRecord)
    (om adj : Int) (P : SavedRecord → Prop)
    (hP : ∀ log, P (mkSaveRecord savedF om adj log cfg.elapsed)) :
    ∀ (trace : List SolveOutcome) (st : WrapperState) (writes : List SavedRecord)
      (invocs newEvals : Nat),
      (∀ w ∈ writes, P w) →
      ∀ w ∈ (driverLoop cfg savedF om adj st writes invocs newEvals trace).writes, P w := by
  intro trace
  induction trace with
  | nil =>
      intro st writes invocs newEvals hw
      rw [driverLoop.eq_def]
      by_cases hpre : adj > 0 ∧ savedF.isSome = true ∧ st.numEvals = adj
      · rw [if_pos hpre]
        exact maxHandler_writes_inv cfg savedF om adj st writes invocs newEvals P hP hw
      · rw [if_neg hpre]
        simpa using hw
  | cons o rest ih =>
      intro st writes invocs newEvals hw
      rw [driverLoop.eq_def]
      by_cases hpre : adj > 0 ∧ savedF.isSome = true ∧ st.numEvals = adj
      · rw [if_pos hpre]
        exact maxHandler_writes_inv cfg savedF om adj st writes invocs newEvals P hP hw
      · rw [if_neg hpre]
        cases o with
        | normal sol evals => simpa using hw
        | modulo evals =>
            show ∀ w ∈ (driverLoop cfg savedF om adj (applyEvals st evals)
              (writes ++ (if cfg.saveDir then
                [mkSaveRecord savedF om adj (applyEvals st evals).log cfg.elapsed] else []))
              (invocs + 1) (newEvals + evals.length) rest).writes, P w
            apply ih
            intro w hwmem
            rcases List.mem_append.mp hwmem with hmem | hmem
            · exact hw w hmem
            · by_cases hsd : cfg.saveDir = true
              · rw [if_pos hsd] at hmem
                have : w = mkSaveRecord savedF om adj (applyEvals st evals).log cfg.elapsed := by
                  simpa using hmem
                subst this
                exact hP (applyEvals st evals).log
              · rw [if_neg hsd] at hmem
                simp at hmem
        | maxed evals =>
            exact maxHandler_writes_inv cfg savedF om adj (applyEvals st evals) writes
              (invocs + 1) (newEvals + evals.length) P hP hw

theorem mkSaveRecord_fields (savedF : Option SavedRecord) (om adj : Int)
    (log : CallLog) (elapsed : ℚ) :
    (mkSaveRecord savedF om adj log elapsed).max_evals = om ∧
    (mkSaveRecord savedF om adj log elapsed).num_evals
      = (if ((mkSaveRecord savedF om adj log elapsed).log_data.length : Int)
            = budgetKey savedF om
         then adj
         else ((mkSaveRecord savedF om adj log elapsed).log_data.length : Int)) :=
  ⟨rfl, rfl⟩

theorem confirmLoop_decline :
    ∀ (answers : List String), firstValid answers = some false →
      confirmLoop answers = ConfirmResult.exitCode 999
  | [], h => by simp [firstValid] at h
  | a :: rest, h => by
      simp only [firstValid] at h
      simp only [confirmLoop]
      cases hva : validAnswer a with
      | none =>
          rw [hva] at h
          simpa using confirmLoop_decline rest h
      | some b =>
          rw [hva] at h
          simp only [Option.some.injEq] at h
          subst h
          rfl

theorem shortCircuitResult_spec (cfg : OptConfig) (saved : SavedRecord)
    (hne : saved.log_data ≠ []) (hnd : keysNodup saved.log_data) :
    shortCircuitResult cfg saved
      = { exit := ExitKind.returned
            (epilogue cfg.decoder saved.log_data.reverse
              ((saved.log_data.reverse.map Prod.fst).getD
                (bestIndex cfg.maximize (saved.log_data.reverse.map Prod.snd)) default)
              none saved.elapsed_time)
          writes := [], solverInvocations := 0, newEvals := 0 } := by
  have hne2 : saved.log_data.reverse ≠ [] := by simpa using hne
  simp only [shortCircuitResult, restoreLoop_of_keysNodup hnd,
    extractSolution_eq_some cfg.maximize hne2]

theorem shortCircuitResult_writes (cfg : OptConfig) (saved : SavedRecord) :
    (shortCircuitResult cfg saved).writes = [] := by
  simp only [shortCircuitResult]
  cases extractSolution cfg.maximize (restoreLoop saved.log_data []) <;> rfl

/-! ### The claims -/

/-- C1: for every requested budget `E`, the effective evaluation ceiling
computed by `optimize` equals `E + 2*(E // 2) - 1` when `E` is even and
`E + 2*(E // 2)` when `E` is odd, this effective ceiling is congruent to
1 modulo 2, and the same formula is applied on a fresh run and on
restore. -/
theorem claim_C1_effective_ceiling (E : Int) :
    adjustBudgetFresh E
      = (if E.emod 2 = 0 then E + 2 * E.fdiv 2 - 1 else E + 2 * E.fdiv 2) ∧
    (adjustBudgetFresh E).emod 2 = 1 ∧
    adjustBudgetRestore E = adjustBudgetFresh E := by
  refine ⟨rfl, ?_, rfl⟩
  rw [adjustBudgetFresh_closed]
  show (2 * E - 1) % 2 = 1
  omega

/-- C2 as stated is false: the restore loop pops the stored entries with
`popitem()` (which takes the most recently inserted entry), so on the
concrete two-entry record the rebuilt log holds the entries in reverse
of their stored order, not the log that inserting them in stored order
would build. -/
theorem claim_C2_counterexample :
    restoreWrapperState
        { log_data := storedC2, max_evals := 2, num_evals := 2, elapsed_time := 0 }
      = { numEvals := 2, log := [(pB, 2), (pA, 1)] } ∧
    ([(pB, 2), (pA, 1)] : CallLog)
      ≠ List.foldl (fun l kv => CallLog.insert l kv.1 kv.2) [] storedC2 := by
  refine ⟨by decide, by decide⟩

/-- C2 amended: when `optimize` restores from a checkpoint record, the
rebuilt `CallLog` is seeded by inserting the record's log entries in
reverse of their stored order (because `popitem` pops the most recently
inserted entry), and the wrapper's evaluation counter starts at the
record's consumed-evaluations value. -/
theorem claim_C2_restore_seed (saved : SavedRecord) :
    (restoreWrapperState saved).numEvals = saved.num_evals ∧
    (restoreWrapperState saved).log
      = List.foldl (fun l kv => CallLog.insert l kv.1 kv.2) [] saved.log_data.reverse :=
  ⟨rfl, restoreLoop_eq_foldl_reverse saved.log_data []⟩

/-- C4: on termination via budget exhaustion with a non-empty call log,
the extraction of `optimize` selects the first point in log insertion
order achieving the maximum (when maximizing) or minimum (when
minimizing) score: the selected index is in range, the solution is the
key at that index, its score is best in the whole log, and every
earlier-inserted point scores strictly worse — so on ties the
earlier-inserted point wins, for both directions. -/
theorem claim_C4_first_best (maxz : Bool) (log : CallLog) (h : log ≠ []) :
    bestIndex maxz (log.map Prod.snd) < log.length ∧
    extractSolution maxz log
      = (log.map Prod.fst).get? (bestIndex maxz (log.map Prod.snd)) ∧
    (∀ j, j < log.length →
      wle maxz ((log.map Prod.snd).getD j 0)
        ((log.map Prod.snd).getD (bestIndex maxz (log.map Prod.snd)) 0)) ∧
    (∀ j, j < bestIndex maxz (log.map Prod.snd) →
      wlt maxz ((log.map Prod.snd).getD j 0)
        ((log.map Prod.snd).getD (bestIndex maxz (log.map Prod.snd)) 0)) := by
  have hvals : log.map Prod.snd ≠ [] := by
    cases log
    · exact absurd rfl h
    · simp
  have hspec := bestIndex_spec maxz (log.map Prod.snd) hvals
  refine ⟨by simpa using hspec.1, ?_, ?_, ?_⟩
  · cases log
    · exact absurd rfl h
    · rfl
  · intro j hj
    rw [hspec.2.1]
    exact hspec.2.2.1 j (by simpa using hj)
  · intro j hj
    rw [hspec.2.1]
    exact hspec.2.2.2 j hj

/-- Witness for C4 at a concrete log with a tie at the best score. -/
theorem claim_C4_first_best_witness :
    logTied ≠ [] ∧
    (bestIndex true (logTied.map Prod.snd) < logTied.length ∧
      extractSolution true logTied
        = (logTied.map Prod.fst).get? (bestIndex true (logTied.map Prod.snd)) ∧
      (∀ j, j < logTied.length →
        wle true ((logTied.map Prod.snd).getD j 0)
          ((logTied.map Prod.snd).getD (bestIndex true (logTied.map Prod.snd)) 0)) ∧
      (∀ j, j < bestIndex true (logTied.map Prod.snd) →
        wlt true ((logTied.map Prod.snd).getD j 0)
          ((logTied.map Prod.snd).getD (bestIndex true (logTied.map Prod.snd)) 0))) :=
  ⟨by decide, claim_C4_first_best true logTied (by decide)⟩

/-- C5: with a save directory configured, no restore requested, an
existing checkpoint file for the requested budget, and the user's first
valid answer declining the overwrite, the run aborts through
`sys.exit(999)` — a distinct non-zero status — with no checkpoint
written, no solver invocation and no evaluation, leaving the existing
file untouched. -/
theorem claim_C5_overwrite_decline (cfg : OptConfig)
    (hres : cfg.restore = none) (hsd : cfg.saveDir = true)
    (hex : cfg.saveFileExists = true) (hans : firstValid cfg.answers = some false) :
    optimizeModel cfg
      = { exit := ExitKind.exited 999, writes := [],
          solverInvocations := 0, newEvals := 0 } ∧
    (999 : Nat) ≠ 0 := by
  refine ⟨?_, by decide⟩
  have hcl := confirmLoop_decline cfg.answers hans
  simp [optimizeModel, hres, hsd, hex, hcl]

/-- Witness for C5 at a concrete configuration: one invalid answer, then
a decline. -/
theorem claim_C5_overwrite_decline_witness :
    cfgDecline.restore = none ∧ cfgDecline.saveDir = true ∧
    cfgDecline.saveFileExists = true ∧ firstValid cfgDecline.answers = some false ∧
    (optimizeModel cfgDecline
        = { exit := ExitKind.exited 999, writes := [],
            solverInvocations := 0, newEvals := 0 } ∧
      (999 : Nat) ≠ 0) :=
  ⟨rfl, rfl, rfl, by decide,
    claim_C5_overwrite_decline cfgDecline rfl rfl rfl (by decide)⟩

/-- C7: the periodic-checkpoint interruption (`ModuloEvaluationsException`)
is never surfaced by `optimize`: whenever a solver invocation ends with it
(and the pre-invocation exhaustion check did not fire), the loop's result
is the result of continuing — a record is appended exactly when a save
directory is configured, the invocation counter advances, and the solver
is invoked again on the remaining trace, whether or not a save location
was configured. -/
theorem claim_C7_modulo_internal (cfg : OptConfig) (savedF : Option SavedRecord)
    (om adj : Int) (st : WrapperState) (writes : List SavedRecord)
    (invocs newEvals : Nat) (evals : List (Point × ℚ)) (rest : List SolveOutcome)
    (hpre : ¬ (adj > 0 ∧ savedF.isSome = true ∧ st.numEvals = adj)) :
    driverLoop cfg savedF om adj st writes invocs newEvals
        (SolveOutcome.modulo evals :: rest)
      = driverLoop cfg savedF om adj (applyEvals st evals)
          (writes ++ (if cfg.saveDir then
            [mkSaveRecord savedF om adj (applyEvals st evals).log cfg.elapsed] else []))
          (invocs + 1) (newEvals + evals.length) rest := by
  rw [driverLoop.eq_def]
  rw [if_neg hpre]

/-- Witness for C7 at a concrete loop state with a save directory. -/
theorem claim_C7_modulo_internal_witness :
    driverLoop cfgStep none 2 3 ⟨0, []⟩ [] 0 0 [SolveOutcome.modulo [(pA, 1)]]
      = driverLoop cfgStep none 2 3 (applyEvals ⟨0, []⟩ [(pA, 1)])
          ([] ++ (if cfgStep.saveDir then
            [mkSaveRecord none 2 3 (applyEvals ⟨0, []⟩ [(pA, 1)]).log cfgStep.elapsed]
          else []))
          (0 + 1) (0 + ([(pA, (1 : ℚ))]).length) [] :=
  claim_C7_modulo_internal cfgStep none 2 3 ⟨0, []⟩ [] 0 0 [(pA, 1)] [] (by decide)

/-- C9: in `maximize` and `minimize`, if any box-constraint value is not a
two-element `[lb, ub]` pair with `lb < ub`, the call fails with an
assertion error before any objective evaluation is performed. -/
theorem claim_C9_box_assert (box : List (String × List ℚ)) (pipelineEvals : Nat)
    (h : ∃ kv ∈ box, validConstraintPair kv.2 = false) :
    maximizeRun box pipelineEvals = { assertionError := true, evalsPerformed := 0 } ∧
    minimizeRun box pipelineEvals = { assertionError := true, evalsPerformed := 0 } := by
  have hbox : boxOk box = false := by
    rcases h with ⟨kv, hm, hv⟩
    simp only [boxOk, List.all_eq_false]
    exact ⟨kv, hm, by simp [hv]⟩
  constructor <;> simp [maximizeRun, minimizeRun, hbox]

/-- Witness for C9 at a concrete invalid box (`lb ≥ ub`). -/
theorem claim_C9_box_assert_witness :
    (∃ kv ∈ badBox, validConstraintPair kv.2 = false) ∧
    (maximizeRun badBox 5 = { assertionError := true, evalsPerformed := 0 } ∧
      minimizeRun badBox 5 = { assertionError := true, evalsPerformed := 0 }) :=
  ⟨by decide, claim_C9_box_assert badBox 5 (by decide)⟩

theorem optimizeModel_returned_inv (cfg : OptConfig) (r : OptResult)
    (hr : (optimizeModel cfg).exit = ExitKind.returned r) :
    r.statsNumEvals = (r.callDict.length : Int) ∧
    r.optimum = CallLog.get r.callDict r.solution := by
  cases hres : cfg.restore with
  | some saved =>
      simp only [optimizeModel.eq_def, hres] at hr
      by_cases hsc : adjustBudgetRestore
          (if cfg.maxEvals = 0 then saved.max_evals else cfg.maxEvals)
          - saved.num_evals ≤ 0
      · rw [if_pos hsc] at hr
        simp only [shortCircuitResult] at hr
        cases hex : extractSolution cfg.maximize (restoreLoop saved.log_data []) with
        | none => rw [hex] at hr; simp at hr
        | some sol =>
            rw [hex] at hr
            have hr2 : ExitKind.returned
                (epilogue cfg.decoder (restoreLoop saved.log_data []) sol none
                  saved.elapsed_time)
                = ExitKind.returned r := hr
            injection hr2 with h2
            subst h2
            exact epilogue_inv _ _ _ _ _ (restoreLoop_keysNodup saved.log_data)
      · rw [if_neg hsc] at hr
        exact driverLoop_returned_inv cfg (some saved)
          (if cfg.maxEvals = 0 then saved.max_evals else cfg.maxEvals)
          (adjustBudgetRestore (if cfg.maxEvals = 0 then saved.max_evals else cfg.maxEvals))
          cfg.trace (restoreWrapperState saved) [] 0 0 r
          (restoreLoop_keysNodup saved.log_data) hr
  | none =>
      simp only [optimizeModel.eq_def, hres] at hr
      cases hcf : (if cfg.saveDir ∧ cfg.saveFileExists then confirmLoop cfg.answers
          else ConfirmResult.proceed) with
      | exitCode c => rw [hcf] at hr; simp at hr
      | noAnswer => rw [hcf] at hr; simp at hr
      | proceed =>
          rw [hcf] at hr
          exact driverLoop_returned_inv cfg none cfg.maxEvals
            (adjustBudgetFresh cfg.maxEvals) cfg.trace ⟨0, []⟩ [] 0 0 r
            (by simp [keysNodup]) hr

/-- C6 as stated is false: on the concrete fresh run `cfgSaveFour`
(requested budget 4, adjusted ceiling 7) the two records written both
store `num_evals = 7` — the cadence-adjusted internal ceiling — although
only 4 evaluations were consumed at each save (the saved log holds 4
entries and the whole run performs 4 evaluations). -/
theorem claim_C6_counterexample :
    (optimizeModel cfgSaveFour).writes = [recSaveFour, recSaveFour] ∧
    recSaveFour.num_evals = 7 ∧
    (recSaveFour.log_data.length : Int) = 4 ∧
    (optimizeModel cfgSaveFour).newEvals = 4 ∧
    (7 : Int) ≠ 4 :=
  ⟨by decide, by decide, by decide, by decide, by decide⟩

/-- C6 amended: every checkpoint record written by `optimize` stores the
originally requested budget in `max_evals`, and stores in `num_evals` the
length of the call log at the save — except when that length equals the
record's budget key (the restored record's `max_evals`, or the original
budget on a fresh run), in which case the cadence-adjusted internal
ceiling is stored instead. -/
theorem claim_C6_record_fields (cfg : OptConfig) (w : SavedRecord)
    (hw : w ∈ (optimizeModel cfg).writes) :
    w.max_evals = resolvedBudget cfg ∧
    w.num_evals
      = (if (w.log_data.length : Int) = budgetKey cfg.restore (resolvedBudget cfg)
         then adjustBudgetFresh (resolvedBudget cfg)
         else (w.log_data.length : Int)) := by
  cases hres : cfg.restore with
  | some saved =>
      have hrb : resolvedBudget cfg
          = (if cfg.maxEvals = 0 then saved.max_evals else cfg.maxEvals) := by
        simp [resolvedBudget, hres]
      simp only [optimizeModel.eq_def, hres] at hw
      by_cases hsc : adjustBudgetRestore
          (if cfg.maxEvals = 0 then saved.max_evals else cfg.maxEvals)
          - saved.num_evals ≤ 0
      · rw [if_pos hsc, shortCircuitResult_writes] at hw
        simp at hw
      · rw [if_neg hsc] at hw
        have hall := driverLoop_writes_inv cfg (some saved)
          (if cfg.maxEvals = 0 then saved.max_evals else cfg.maxEvals)
          (adjustBudgetRestore (if cfg.maxEvals = 0 then saved.max_evals else cfg.maxEvals))
          (fun v => v.max_evals
              = (if cfg.maxEvals = 0 then saved.max_evals else cfg.maxEvals) ∧
            v.num_evals
              = (if (v.log_data.length : Int)
                    = budgetKey (some saved)
                        (if cfg.maxEvals = 0 then saved.max_evals else cfg.maxEvals)
                 then adjustBudgetRestore
                     (if cfg.maxEvals = 0 then saved.max_evals else cfg.maxEvals)
                 else (v.log_data.length : Int)))
          (fun log => mkSaveRecord_fields (some saved) _ _ log cfg.elapsed)
          cfg.trace (restoreWrapperState saved) [] 0 0 (by simp) w hw
        rw [hrb, ← adjustBudgetRestore_eq]
        exact hall
  | none =>
      simp only [optimizeModel.eq_def, hres] at hw
      cases hcf : (if cfg.saveDir ∧ cfg.saveFileExists then confirmLoop cfg.answers
          else ConfirmResult.proceed) with
      | exitCode c => rw [hcf] at hw; simp at hw
      | noAnswer => rw [hcf] at hw; simp at hw
      | proceed =>
          rw [hcf] at hw
          have hall := driverLoop_writes_inv cfg none cfg.maxEvals
            (adjustBudgetFresh cfg.maxEvals)
            (fun v => v.max_evals = cfg.maxEvals ∧
              v.num_evals
                = (if (v.log_data.length : Int) = budgetKey none cfg.maxEvals
                   then adjustBudgetFresh cfg.maxEvals
                   else (v.log_data.length : Int)))
            (fun log => mkSaveRecord_fields none cfg.maxEvals _ log cfg.elapsed)
            cfg.trace ⟨0, []⟩ [] 0 0 (by simp) w hw
          have hrb : resolvedBudget cfg = cfg.maxEvals := by
            simp [resolvedBudget, hres]
          rw [hrb]
          exact hall

/-- Witness for the amended C6 at the first record `cfgSaveFour`
writes. -/
theorem claim_C6_record_fields_witness :
    recSaveFour ∈ (optimizeModel cfgSaveFour).writes ∧
    (recSaveFour.max_evals = resolvedBudget cfgSaveFour ∧
      recSaveFour.num_evals
        = (if (recSaveFour.log_data.length : Int)
              = budgetKey cfgSaveFour.restore (resolvedBudget cfgSaveFour)
           then adjustBudgetFresh (resolvedBudget cfgSaveFour)
           else (recSaveFour.log_data.length : Int))) :=
  ⟨by decide, claim_C6_record_fields cfgSaveFour recSaveFour (by decide)⟩

/-- C8: for every run of `optimize` that returns, the `num_evals` field of
the returned stats equals the number of entries in the returned call-log
mapping. -/
theorem claim_C8_stats_match_log (cfg : OptConfig) (r : OptResult)
    (hr : (optimizeModel cfg).exit = ExitKind.returned r) :
    r.statsNumEvals = (r.callDict.length : Int) :=
  (optimizeModel_returned_inv cfg r hr).1

/-- Witness for C8 at a concrete fresh run. -/
theorem claim_C8_stats_match_log_witness :
    (optimizeModel cfgOne).exit = ExitKind.returned resOne ∧
    resOne.statsNumEvals = (resOne.callDict.length : Int) :=
  ⟨by decide, claim_C8_stats_match_log cfgOne resOne (by decide)⟩

/-- C10: for every run of `optimize` with no decoder configured that
returns, the returned optimum equals the score stored in the returned
call-log mapping under the returned solution point (as an equality of
optional values, covering every return path: normal solver completion,
budget exhaustion and the restore short circuit). -/
theorem claim_C10_optimum_from_log (cfg : OptConfig) (r : OptResult)
    (hdec : cfg.decoder = none)
    (hr : (optimizeModel cfg).exit = ExitKind.returned r) :
    r.optimum = CallLog.get r.callDict r.solution :=
  (optimizeModel_returned_inv cfg r hr).2

/-- Witness for C10 at a concrete minimizing run. -/
theorem claim_C10_optimum_from_log_witness :
    cfgTwo.decoder = none ∧
    (optimizeModel cfgTwo).exit = ExitKind.returned resTwo ∧
    resTwo.optimum = CallLog.get resTwo.callDict resTwo.solution :=
  ⟨rfl, by decide, claim_C10_optimum_from_log cfgTwo resTwo rfl (by decide)⟩

/-- C3 as stated is false: on the concrete record `savedTied` (two points
tied at the best score, consumed evaluations 5 ≥ adjusted ceiling 3) the
short-circuited run performs zero evaluations and never invokes the
solver, but returns `pB` — the later-stored of the tied points — while a
direct extraction from the checkpoint's log in its stored order selects
`pA`: the replay reversed the log, so the tie breaks differently. -/
theorem claim_C3_counterexample :
    optimizeModel cfgTied
      = { exit := ExitKind.returned
            { solution := pB, optimum := some 1, statsNumEvals := 2, statsTime := 0,
              callDict := [(pB, 1), (pA, 1)], report := none }
          writes := [], solverInvocations := 0, newEvals := 0 } ∧
    extractSolution true savedTied.log_data = some pA ∧
    pA ≠ pB :=
  ⟨by decide, by decide, by decide⟩

/-- C3 amended: on every restore whose remaining budget (effective ceiling
minus the record's consumed evaluations) is ≤ 0, `optimize` performs zero
new objective evaluations, never invokes the solver, writes nothing, and
returns the best point extracted from the rebuilt log (the record's
entries replayed in reverse stored order); the returned optimum equals
the best score a direct extraction from the checkpoint's log would find
(the same point only when the best score is unique). -/
theorem claim_C3_restore_exhausted (cfg : OptConfig) (saved : SavedRecord)
    (hres : cfg.restore = some saved) (hdec : cfg.decoder = none)
    (hne : saved.log_data ≠ []) (hnd : keysNodup saved.log_data)
    (hle : adjustBudgetRestore (if cfg.maxEvals = 0 then saved.max_evals else cfg.maxEvals)
        - saved.num_evals ≤ 0) :
    ∃ r : OptResult,
      optimizeModel cfg
        = { exit := ExitKind.returned r, writes := [],
            solverInvocations := 0, newEvals := 0 } ∧
      extractSolution cfg.maximize (restoreLoop saved.log_data []) = some r.solution ∧
      r.optimum = directBestScore cfg.maximize saved.log_data ∧
      (directBestScore cfg.maximize saved.log_data).isSome = true := by
  have hne2 : saved.log_data.reverse ≠ [] := by simpa using hne
  have hvals : saved.log_data.map Prod.snd ≠ [] := by
    cases hl : saved.log_data
    · exact absurd hl hne
    · simp
  have hrevvals : saved.log_data.reverse.map Prod.snd
      = (saved.log_data.map Prod.snd).reverse := List.map_reverse Prod.snd saved.log_data
  have hrevvalsne : saved.log_data.reverse.map Prod.snd ≠ [] := by
    rw [hrevvals]
    simpa using hvals
  have hrevnd : keysNodup saved.log_data.reverse := by
    unfold keysNodup at hnd ⊢
    rw [List.map_reverse]
    exact List.nodup_reverse.mpr hnd
  have hmodel : optimizeModel cfg = shortCircuitResult cfg saved := by
    simp only [optimizeModel.eq_def, hres]
    rw [if_pos hle]
  have hsc := shortCircuitResult_spec cfg saved hne hnd
  have hbilt : bestIndex cfg.maximize (saved.log_data.reverse.map Prod.snd)
      < saved.log_data.reverse.length := by
    have := (bestIndex_spec cfg.maximize (saved.log_data.reverse.map Prod.snd) hrevvalsne).1
    simpa using this
  have hbiltS : bestIndex cfg.maximize (saved.log_data.map Prod.snd)
      < saved.log_data.length := by
    have := (bestIndex_spec cfg.maximize (saved.log_data.map Prod.snd) hvals).1
    simpa using this
  have hdirect : directBestScore cfg.maximize saved.log_data
      = some (bestVal cfg.maximize (saved.log_data.map Prod.snd)) := by
    unfold directBestScore
    rw [extractSolution_eq_some cfg.maximize hne]
    exact get_at_index saved.log_data hnd _ hbiltS
  refine ⟨epilogue cfg.decoder saved.log_data.reverse
      ((saved.log_data.reverse.map Prod.fst).getD
        (bestIndex cfg.maximize (saved.log_data.reverse.map Prod.snd)) default)
      none saved.elapsed_time, ?_, ?_, ?_, ?_⟩
  · rw [hmodel, hsc]
  · rw [restoreLoop_of_keysNodup hnd, extractSolution_eq_some cfg.maximize hne2]
    simp [epilogue, hdec]
  · have hget := get_at_index saved.log_data.reverse hrevnd
      (bestIndex cfg.maximize (saved.log_data.reverse.map Prod.snd)) hbilt
    have hbv : (saved.log_data.reverse.map Prod.snd).getD
        (bestIndex cfg.maximize (saved.log_data.reverse.map Prod.snd)) 0
        = bestVal cfg.maximize (saved.log_data.map Prod.snd) := by
      show bestVal cfg.maximize (saved.log_data.reverse.map Prod.snd)
        = bestVal cfg.maximize (saved.log_data.map Prod.snd)
      rw [hrevvals]
      exact bestVal_reverse cfg.maximize (saved.log_data.map Prod.snd) hvals
    rw [hdirect]
    simp only [epilogue, hdec]
    rw [hget, hbv]
  · rw [hdirect]
    rfl

/-- Witness for the amended C3 at a concrete restore with distinct
scores. -/
theorem claim_C3_restore_exhausted_witness :
    cfgPlain.restore = some savedPlain ∧ cfgPlain.decoder = none ∧
    savedPlain.log_data ≠ [] ∧ keysNodup savedPlain.log_data ∧
    adjustBudgetRestore (if cfgPlain.maxEvals = 0 then savedPlain.max_evals
        else cfgPlain.maxEvals) - savedPlain.num_evals ≤ 0 ∧
    (∃ r : OptResult,
      optimizeModel cfgPlain
        = { exit := ExitKind.returned r, writes := [],
            solverInvocations := 0, newEvals := 0 } ∧
      extractSolution cfgPlain.maximize (restoreLoop savedPlain.log_data [])
        = some r.solution ∧
      r.optimum = directBestScore cfgPlain.maximize savedPlain.log_data ∧
      (directBestScore cfgPlain.maximize savedPlain.log_data).isSome = true) :=
  ⟨rfl, rfl, by decide, by decide, by decide,
    claim_C3_restore_exhausted cfgPlain savedPlain rfl rfl (by decide) (by decide)
      (by decide)⟩
